import Mathlib

/-!
# Verification of `script/readme_generator/generate_supported_compilers.py`

A shallow embedding of the README-table generator: the configuration data
model, the schema validator (`config_validator`), the Markdown renderer
(`render_table`) and the verify-mode line diff from the `__main__` verify
branch, together with theorems settling the specification claims.

Python `dict`s (insertion-ordered) are modelled as association lists; the
inner per-backend JSON objects (optional `state` / `comment` keys) as a
structure of `Option String` fields; Python strings as Lean `String`.
-/

set_option autoImplicit false
set_option maxRecDepth 200000

namespace ReadmeGen

/-- Mirrors the Python dataclass `ConfigEntry`: the key used in the json
config and how the key is printed in markdown. -/
structure ConfigEntry where
  name : String
  representation : String
deriving DecidableEq

/-- Source `get_expected_config_entries` (lines 27-38): the fixed, ordered
list of the nine backend fields. -/
def get_expected_config_entries : List ConfigEntry :=
  [⟨"serial", "Serial"⟩,
   ⟨"OMPblock", "OpenMP 2.0+ blocks"⟩,
   ⟨"OMPthread", "OpenMP 2.0+ threads"⟩,
   ⟨"thread", "std::thread"⟩,
   ⟨"tbb", "TBB"⟩,
   ⟨"CUDAnvcc", "CUDA (nvcc)"⟩,
   ⟨"CUDAclang", "CUDA (clang)"⟩,
   ⟨"hip", "HIP (clang)"⟩,
   ⟨"sycl", "SYCL"⟩]

/-- Source `get_expected_config_names` (line 42). -/
def get_expected_config_names : List String :=
  get_expected_config_entries.map (fun n => n.name)

/-- Source `get_known_states` (line 46): association list mirroring the
Python dict `{"yes": ":white_check_mark:", "no": ":x:", "none": "-"}`. -/
def get_known_states : List (String × String) :=
  [("yes", ":white_check_mark:"), ("no", ":x:"), ("none", "-")]

/-- Source `get_known_state_names` (line 54). -/
def get_known_state_names : List String :=
  get_known_states.map (fun p => p.1)

/-- Python dict lookup `get_known_states()[state]`, as an `Option`
(the Python raises `KeyError` where this returns `none`). -/
def lookup_state (st : String) : Option String :=
  (get_known_states.find? (fun p => p.1 = st)).map (fun p => p.2)

/-- The inner JSON object of one backend entry: `state` and `comment` are
both optional keys at the JSON level (validation enforces `state`). -/
structure FieldConf where
  state : Option String
  comment : Option String
deriving DecidableEq

/-- One compiler's mapping: backend-field identifier to `FieldConf`,
insertion-ordered (a Python dict). -/
abbrev CompilerConf := List (String × FieldConf)

/-- The whole configuration: compiler name to `CompilerConf`,
insertion-ordered (the top-level JSON object). -/
abbrev Config := List (String × CompilerConf)

/-- Ordered-dict lookup: first entry with the given key. -/
def alookup (k : String) (m : List (String × FieldConf)) : Option FieldConf :=
  (m.find? (fun p => p.1 = k)).map (fun p => p.2)

/-! ## Validator (source `config_validator`, lines 58-77) -/

/-- The three schema errors the validator reports, with the data the
printed message interpolates: the compiler name, the field identifier,
and (for an unknown state) the offending value. -/
inductive ValidationError where
  | missingField (compiler field : String)
  | missingState (compiler field : String)
  | unknownState (compiler field value : String)
deriving DecidableEq

/-- The body of the validator's inner loop (lines 62-75) for one expected
field: absent field, field without `state` key, or unknown state value. -/
def field_defect (compiler : String) (cc : CompilerConf) (f : String) :
    Option ValidationError :=
  match alookup f cc with
  | none => some (.missingField compiler f)
  | some fc =>
    match fc.state with
    | none => some (.missingState compiler f)
    | some st =>
      if st ∈ get_known_state_names then none
      else some (.unknownState compiler f st)

/-- The validator's inner loop over the expected field names (line 61):
returns the first defect, in field order. -/
def validate_fields (compiler : String) (cc : CompilerConf) :
    List String → Option ValidationError
  | [] => none
  | f :: fs =>
    match field_defect compiler cc f with
    | some e => some e
    | none => validate_fields compiler cc fs

/-- Source `config_validator` (lines 58-77): scans compilers in insertion
order; `none` models the Python `True` return, `some e` models printing
the error message for `e` and returning `False`. -/
def config_validator : Config → Option ValidationError
  | [] => none
  | (name, cc) :: rest =>
    match validate_fields name cc get_expected_config_names with
    | some e => some e
    | none => config_validator rest

/-! ## Renderer (source `render_table`, lines 80-132) -/

/-- The cell for one backend entry (lines 98-101): the state's markdown
symbol, then optionally a space and the comment. `render_table` runs only
on validated input, where `lookup_state` never misses; the `getD ""`
totalises the Python `KeyError` case. -/
def render_cell (fc : FieldConf) : String :=
  let value := ((fc.state.bind lookup_state).getD "")
  match fc.comment with
  | some c => value ++ " " ++ c
  | none => value

/-- Column 0 of the internal `[column][row]` grid (lines 87-90): the
header label followed by the nine backend representations. -/
def backend_header_column : List String :=
  "Accelerator Back-end" :: get_expected_config_entries.map (fun n => n.representation)

/-- One compiler's column (lines 95-102): the compiler name followed by
one cell per entry of the compiler's mapping, in insertion order
(`compiler_conf.values()`). -/
def compiler_column (name : String) (cc : CompilerConf) : List String :=
  name :: cc.map (fun p => render_cell p.2)

/-- The internal column-major grid `table` (lines 83-102). -/
def table_grid (conf : Config) : List (List String) :=
  backend_header_column :: conf.map (fun p => compiler_column p.1 p.2)

/-- Width of one column (lines 107-111): `size = max(size, len(row))`
folded over the column starting from 0. -/
def column_size (col : List String) : Nat :=
  col.foldl (fun size row => max size row.length) 0

/-- Source `column_sizes` (lines 106-111). -/
def column_sizes (conf : Config) : List Nat :=
  (table_grid conf).map column_size

/-- Python `f"{s:<{w}}"`: left-justify `s` to width `w` with spaces
(no-op when `s` is already at least `w` long). -/
def pad_left_justified (s : String) (w : Nat) : String :=
  s ++ String.mk (List.replicate (w - s.length) ' ')

/-- The cells of rendered row `r`: `table[c_num][r]` for each column
(lines 116 and 129). Every grid column is nonempty so row 0 never hits
the default; rows 1..9 are in range whenever each compiler has at least
nine entries (guaranteed after validation). -/
def row_cells (conf : Config) (r : Nat) : List String :=
  (table_grid conf).map (fun col => col.getD r "")

/-- One rendered table row (lines 114-117 and 127-130): start from `"|"`
and append `f" {cell:<{width}} |"` per column. -/
def render_row (cells : List String) (sizes : List Nat) : String :=
  (cells.zip sizes).foldl
    (fun acc cw => acc ++ " " ++ pad_left_justified cw.1 cw.2 ++ " |") "|"

/-- The separator row (lines 120-123): `"|"` then per column
`(width + 2)` dashes and `"|"`. -/
def separator_row (sizes : List Nat) : String :=
  sizes.foldl (fun acc w => acc ++ String.mk (List.replicate (w + 2) '-') ++ "|") "|"

/-- The rendered lines, in order: header row, separator, then one body
row for each `r_num in range(1, len(table[0]))` (lines 113-130). -/
def render_lines (conf : Config) : List String :=
  render_row (row_cells conf 0) (column_sizes conf)
  :: separator_row (column_sizes conf)
  :: (List.range' 1 (backend_header_column.length - 1)).map
       (fun r => render_row (row_cells conf r) (column_sizes conf))

/-- Source `render_table` (lines 80-132): the lines concatenated into
`markdown_table`, each followed by `"\n"`. -/
def render_table (conf : Config) : String :=
  (render_lines conf).foldl (fun acc l => acc ++ l ++ "\n") ""

/-! ## Verify mode (source `__main__` verify branch, lines 191-226) -/

/-- Python `str.split` on a one-character separator: splits at every
occurrence, keeping empty pieces (so `"a\n".split("\n") = ["a", ""]` and
`"".split("\n") = [""]`). -/
def split_char (c : Char) : List Char → List (List Char)
  | [] => [[]]
  | x :: xs =>
    if x = c then [] :: split_char c xs
    else
      match split_char c xs with
      | [] => [[x]]
      | h :: t => (x :: h) :: t

/-- `markdown_table.split("\n")` (line 196). -/
def py_split_lines (s : String) : List String :=
  (split_char '\n' s.data).map (fun l => String.mk l)

/-- The ASCII whitespace characters Python's `str.rstrip` removes (space,
tab, newline, carriage return, vertical tab, form feed); the README
context holds no exotic Unicode whitespace. -/
def py_is_space (c : Char) : Bool :=
  c = ' ' || c = '\t' || c = '\n' || c = '\r' || c = Char.ofNat 11 || c = Char.ofNat 12

/-- Python `line.rstrip()` (line 192): drop trailing whitespace. -/
def py_rstrip (s : String) : String :=
  String.mk ((s.data.reverse.dropWhile py_is_space).reverse)

/-- `readme = [line.rstrip() for line in readme_file]` (line 192), with the
document given as its list of lines. -/
def stripped_doc (doc : List String) : List String :=
  doc.map py_rstrip

/-- The verify loop (lines 194-206): every line of the rendered table,
with its zero-based `enumerate` index, that is not found in the stripped
document lines; each such pair is printed as `f"{line_num}: {markdown_line}"`. -/
def missing_lines (table : String) (doc : List String) : List (Nat × String) :=
  (py_split_lines table).enum.filter
    (fun il => !((stripped_doc doc).contains il.2))

/-- The verify branch's exit status (lines 208-226): 0 when no line is
missing, 1 otherwise. -/
def verify_exit (table : String) (doc : List String) : Nat :=
  if missing_lines table doc = [] then 0 else 1

/-! ## Derived notions used to state the claims -/

/-- The compiler name a validation error message interpolates. -/
def err_compiler : ValidationError → String
  | .missingField c _ => c
  | .missingState c _ => c
  | .unknownState c _ _ => c

/-- The field identifier a validation error message interpolates. -/
def err_field : ValidationError → String
  | .missingField _ f => f
  | .missingState _ f => f
  | .unknownState _ f _ => f

/-- The offending state value, reported only by `unknownState`. -/
def err_value : ValidationError → Option String
  | .unknownState _ _ v => some v
  | _ => none

/-- `true` when no compiler name and no comment contains a newline
character (state symbols never do). -/
def no_newline_cells (conf : Config) : Bool :=
  conf.all (fun p =>
    p.1.data.all (fun ch => ch ≠ '\n') &&
    p.2.all (fun q =>
      match q.2.comment with
      | some c => c.data.all (fun ch => ch ≠ '\n')
      | none => true))

/-- The cells of rendered column `c`: its header cell (row 0) and its
nine body cells (rows 1..9), the cells that actually appear in the
output. -/
def rendered_column_cells (conf : Config) (c : Nat) : List String :=
  (List.range backend_header_column.length).map
    (fun r => (row_cells conf r).getD c "")

/-! ## Concrete configurations used by counterexamples and witnesses -/

/-- A compiler entry with the nine expected fields, `serial` supported
and `tbb` unsupported, no comments. -/
def gcc_conf : CompilerConf :=
  [("serial", ⟨some "yes", none⟩),
   ("OMPblock", ⟨some "yes", none⟩),
   ("OMPthread", ⟨some "yes", none⟩),
   ("thread", ⟨some "yes", none⟩),
   ("tbb", ⟨some "no", none⟩),
   ("CUDAnvcc", ⟨some "no", none⟩),
   ("CUDAclang", ⟨some "no", none⟩),
   ("hip", ⟨some "no", none⟩),
   ("sycl", ⟨some "no", none⟩)]

/-- A one-compiler configuration that the validator accepts. -/
def one_compiler_conf : Config := [("gcc", gcc_conf)]

/-- A validated configuration whose compiler carries a tolerated tenth
field beyond the nine expected ones. -/
def extra_field_conf : Config :=
  [("gcc", gcc_conf ++ [("extra", ⟨some "yes", none⟩)])]

/-- A validated configuration whose tolerated extra field has a comment
longer than every rendered cell of the column. -/
def extra_wide_conf : Config :=
  [("gcc", gcc_conf ++ [("extra", ⟨some "yes", some "a very long dominating comment here"⟩)])]

/-- A validated configuration whose `serial` comment contains a space
followed by a newline. -/
def newline_comment_conf : Config :=
  [("gcc", (gcc_conf.map (fun p =>
      if p.1 = "serial" then (p.1, ⟨some "yes", some "a \nb"⟩) else p)))]

/-! ## Helper lemmas: string folds -/

/-- Unfolding a string-building `foldl` whose step appends a chunk per
element into the flat character list it produces. -/
theorem foldl_chunks_data {α : Type} (step : String → α → String)
    (chunk : α → List Char)
    (hstep : ∀ a x, (step a x).data = a.data ++ chunk x) :
    ∀ (ps : List α) (acc : String),
      (ps.foldl step acc).data = acc.data ++ (ps.map chunk).flatten := by
  intro ps
  induction ps with
  | nil => intro acc; simp
  | cons p ps ih =>
    intro acc
    simp [List.foldl_cons, ih, hstep, List.append_assoc]

theorem render_row_step_data (a : String) (cw : String × Nat) :
    (a ++ " " ++ pad_left_justified cw.1 cw.2 ++ " |").data
      = a.data ++ (' ' :: ((pad_left_justified cw.1 cw.2).data ++ [' ', '|'])) := by
  simp [String.data_append, List.append_assoc]

theorem render_row_data (cells : List String) (sizes : List Nat) :
    (render_row cells sizes).data
      = '|' :: ((cells.zip sizes).map
          (fun cw => ' ' :: ((pad_left_justified cw.1 cw.2).data ++ [' ', '|']))).flatten := by
  unfold render_row
  rw [foldl_chunks_data _ _ render_row_step_data]
  rfl

theorem separator_row_step_data (a : String) (w : Nat) :
    (a ++ String.mk (List.replicate (w + 2) '-') ++ "|").data
      = a.data ++ (List.replicate (w + 2) '-' ++ ['|']) := by
  simp [String.data_append, List.append_assoc]

theorem separator_row_data (sizes : List Nat) :
    (separator_row sizes).data
      = '|' :: (sizes.map (fun w => List.replicate (w + 2) '-' ++ ['|'])).flatten := by
  unfold separator_row
  rw [foldl_chunks_data _ _ separator_row_step_data]
  rfl

theorem render_table_data (conf : Config) :
    (render_table conf).data
      = ((render_lines conf).map (fun l => l.data ++ ['\n'])).flatten := by
  unfold render_table
  rw [foldl_chunks_data (fun acc l => acc ++ l ++ "\n") (fun l => l.data ++ ['\n'])]
  · rfl
  · intro a x
    simp [String.data_append, List.append_assoc]

/-- A flattened list of chunks that all end in `ch`, prefixed by `ch`,
still ends in `ch`. -/
theorem getLast?_cons_flatten_concat (ch : Char) (ls : List (List Char))
    (h : ∀ l ∈ ls, ∃ pre, l = pre ++ [ch]) :
    (ch :: ls.flatten).getLast? = some ch := by
  induction ls with
  | nil => rfl
  | cons l ls ih =>
    obtain ⟨pre, hpre⟩ := h l (List.mem_cons_self l ls)
    have ih' := ih (fun l hl => h l (List.mem_cons_of_mem _ hl))
    cases hflat : ls.flatten with
    | nil =>
      simp only [List.flatten_cons, hflat, List.append_nil, hpre]
      rw [show ch :: (pre ++ [ch]) = (ch :: pre) ++ [ch] by simp]
      exact List.getLast?_concat _
    | cons y ys =>
      rw [hflat] at ih'
      simp only [List.flatten_cons, hflat]
      rw [← List.cons_append, List.getLast?_append_of_ne_nil _ (List.cons_ne_nil y ys)]
      rw [List.getLast?_cons_cons] at ih'
      exact ih'

/-! ## Helper lemmas: splitting on newlines -/

theorem split_char_ne_nil (c : Char) (l : List Char) : split_char c l ≠ [] := by
  induction l with
  | nil => simp [split_char]
  | cons x xs ih =>
    rw [split_char]
    by_cases hx : x = c
    · simp [hx]
    · simp only [if_neg hx]
      cases split_char c xs <;> simp

theorem split_char_append_sep (c : Char) (l rest : List Char) (hl : c ∉ l) :
    split_char c (l ++ c :: rest) = l :: split_char c rest := by
  induction l with
  | nil => simp [split_char]
  | cons x xs ih =>
    have hx : ¬(x = c) := fun h => hl (h ▸ List.mem_cons_self x xs)
    have hxs : c ∉ xs := fun h => hl (List.mem_cons_of_mem x h)
    rw [List.cons_append, split_char, if_neg hx, ih hxs]

theorem split_char_flatten (c : Char) (ls : List (List Char))
    (h : ∀ l ∈ ls, c ∉ l) :
    split_char c ((ls.map (fun l => l ++ [c])).flatten) = ls ++ [[]] := by
  induction ls with
  | nil => simp [split_char]
  | cons l ls ih =>
    have hl : c ∉ l := h l (List.mem_cons_self l ls)
    have ih' := ih (fun l' hl' => h l' (List.mem_cons_of_mem _ hl'))
    simp only [List.map_cons, List.flatten_cons, List.append_assoc, List.singleton_append]
    rw [split_char_append_sep c l _ hl, ih']
    rfl

theorem split_char_concat_sep (c : Char) (l : List Char) :
    split_char c (l ++ [c]) = split_char c l ++ [[]] := by
  induction l with
  | nil => simp [split_char]
  | cons x xs ih =>
    by_cases hx : x = c
    · subst hx
      simp [split_char, ih]
    · simp only [List.cons_append, split_char, if_neg hx, List.append_eq]
      rw [ih]
      cases h : split_char c xs with
      | nil => exact absurd h (split_char_ne_nil c xs)
      | cons a t => simp

/-! ## Helper lemmas: rstrip -/

theorem py_rstrip_empty : py_rstrip "" = "" := rfl

theorem py_rstrip_eq_self (s : String) (ch : Char)
    (h : s.data.getLast? = some ch) (hch : py_is_space ch = false) :
    py_rstrip s = s := by
  unfold py_rstrip
  rw [← List.head?_reverse] at h
  cases hrev : s.data.reverse with
  | nil => rw [hrev] at h; simp at h
  | cons y ys =>
    rw [hrev] at h
    simp only [List.head?_cons, Option.some.injEq] at h
    subst h
    rw [List.dropWhile_cons_of_neg (by simp [hch]), ← hrev, List.reverse_reverse]

/-! ## Helper lemmas: rendered lines end in a pipe and hold no newline -/

theorem pad_left_justified_data (s : String) (w : Nat) :
    (pad_left_justified s w).data = s.data ++ List.replicate (w - s.length) ' ' := by
  simp [pad_left_justified, String.data_append]

theorem render_row_ends_pipe (cells : List String) (sizes : List Nat) :
    (render_row cells sizes).data.getLast? = some '|' := by
  rw [render_row_data]
  apply getLast?_cons_flatten_concat
  intro l hl
  simp only [List.mem_map] at hl
  obtain ⟨cw, _, rfl⟩ := hl
  exact ⟨' ' :: ((pad_left_justified cw.1 cw.2).data ++ [' ']), by simp⟩

theorem separator_row_ends_pipe (sizes : List Nat) :
    (separator_row sizes).data.getLast? = some '|' := by
  rw [separator_row_data]
  apply getLast?_cons_flatten_concat
  intro l hl
  simp only [List.mem_map] at hl
  obtain ⟨w, _, rfl⟩ := hl
  exact ⟨List.replicate (w + 2) '-', rfl⟩

theorem render_lines_ends_pipe (conf : Config) :
    ∀ l ∈ render_lines conf, l.data.getLast? = some '|' := by
  intro l hl
  simp only [render_lines, List.mem_cons, List.mem_map] at hl
  rcases hl with rfl | rfl | ⟨r, _, rfl⟩
  · exact render_row_ends_pipe _ _
  · exact separator_row_ends_pipe _
  · exact render_row_ends_pipe _ _

theorem render_lines_rstrip_fixed (conf : Config) :
    ∀ l ∈ render_lines conf, py_rstrip l = l := fun l hl =>
  py_rstrip_eq_self l '|' (render_lines_ends_pipe conf l hl) (by decide)

theorem lookup_state_no_newline (st g : String) (h : lookup_state st = some g) :
    '\n' ∉ g.data := by
  unfold lookup_state at h
  cases hf : get_known_states.find? (fun p => p.1 = st) with
  | none => rw [hf] at h; simp at h
  | some p =>
    rw [hf] at h
    simp only [Option.map_some', Option.some.injEq] at h
    subst h
    have hp := List.mem_of_find?_eq_some hf
    simp only [get_known_states, List.mem_cons, List.not_mem_nil, or_false] at hp
    rcases hp with rfl | rfl | rfl <;> decide

theorem render_cell_no_newline (fc : FieldConf)
    (hc : ∀ c, fc.comment = some c → '\n' ∉ c.data) :
    '\n' ∉ (render_cell fc).data := by
  have hval : '\n' ∉ ((fc.state.bind lookup_state).getD "").data := by
    cases hs : fc.state.bind lookup_state with
    | none => simp
    | some g =>
      obtain ⟨st, _, hg⟩ := Option.bind_eq_some.mp hs
      exact lookup_state_no_newline st g hg
  unfold render_cell
  cases hcm : fc.comment with
  | none => exact hval
  | some c =>
    simp only [String.data_append]
    intro hmem
    rcases List.mem_append.mp hmem with h1 | h2
    · rcases List.mem_append.mp h1 with h3 | h4
      · exact hval h3
      · simp at h4
    · exact hc c hcm h2

theorem grid_no_newline (conf : Config) (h : no_newline_cells conf = true) :
    ∀ col ∈ table_grid conf, ∀ s ∈ col, '\n' ∉ s.data := by
  intro col hcol
  simp only [table_grid, List.mem_cons, List.mem_map] at hcol
  rcases hcol with rfl | ⟨p, hp, rfl⟩
  · decide
  · intro s hs
    simp only [no_newline_cells, List.all_eq_true, Bool.and_eq_true] at h
    obtain ⟨hname, hcomments⟩ := h p hp
    simp only [compiler_column, List.mem_cons, List.mem_map] at hs
    rcases hs with rfl | ⟨q, hq, rfl⟩
    · intro hmem
      have := hname _ hmem
      simp at this
    · apply render_cell_no_newline
      intro c hcmt
      have := hcomments q hq
      rw [hcmt] at this
      intro hmem
      have h2 := List.all_eq_true.mp this _ hmem
      simp at h2

theorem getD_eq_or_mem {α : Type} (l : List α) (i : Nat) (d : α) :
    l.getD i d = d ∨ l.getD i d ∈ l := by
  induction l generalizing i with
  | nil => left; rfl
  | cons x xs ih =>
    cases i with
    | zero => right; exact List.mem_cons_self x xs
    | succ i =>
      rcases ih i with h | h
      · left; exact h
      · right; exact List.mem_cons_of_mem x h

theorem row_cells_no_newline (conf : Config) (h : no_newline_cells conf = true)
    (r : Nat) : ∀ s ∈ row_cells conf r, '\n' ∉ s.data := by
  intro s hs
  simp only [row_cells, List.mem_map] at hs
  obtain ⟨col, hcol, rfl⟩ := hs
  rcases getD_eq_or_mem col r "" with he | hm
  · rw [he]; simp
  · exact grid_no_newline conf h col hcol _ hm

theorem render_row_no_newline (cells : List String) (sizes : List Nat)
    (h : ∀ s ∈ cells, '\n' ∉ s.data) :
    '\n' ∉ (render_row cells sizes).data := by
  rw [render_row_data]
  intro hmem
  rcases List.mem_cons.mp hmem with h1 | h2
  · simp at h1
  · obtain ⟨chunk, hchunk, hin⟩ := List.mem_flatten.mp h2
    simp only [List.mem_map] at hchunk
    obtain ⟨cw, hcw, rfl⟩ := hchunk
    rcases List.mem_cons.mp hin with h3 | h4
    · simp at h3
    · rcases List.mem_append.mp h4 with h5 | h6
      · rw [pad_left_justified_data] at h5
        rcases List.mem_append.mp h5 with h7 | h8
        · exact h cw.1 (List.of_mem_zip hcw).1 h7
        · simpa using (List.mem_replicate.mp h8).2
      · simp at h6

theorem separator_row_no_newline (sizes : List Nat) :
    '\n' ∉ (separator_row sizes).data := by
  rw [separator_row_data]
  intro hmem
  rcases List.mem_cons.mp hmem with h1 | h2
  · simp at h1
  · obtain ⟨chunk, hchunk, hin⟩ := List.mem_flatten.mp h2
    simp only [List.mem_map] at hchunk
    obtain ⟨w, _, rfl⟩ := hchunk
    rcases List.mem_append.mp hin with h3 | h4
    · simpa using (List.mem_replicate.mp h3).2
    · simp at h4

theorem render_lines_no_newline (conf : Config) (h : no_newline_cells conf = true) :
    ∀ l ∈ render_lines conf, '\n' ∉ l.data := by
  intro l hl
  simp only [render_lines, List.mem_cons, List.mem_map] at hl
  rcases hl with rfl | rfl | ⟨r, _, rfl⟩
  · exact render_row_no_newline _ _ (row_cells_no_newline conf h 0)
  · exact separator_row_no_newline _
  · exact render_row_no_newline _ _ (row_cells_no_newline conf h _)

/-! ## Helper lemmas: splitting the rendered table -/

theorem py_split_render_table (conf : Config) (h : no_newline_cells conf = true) :
    py_split_lines (render_table conf) = render_lines conf ++ [""] := by
  unfold py_split_lines
  rw [render_table_data]
  have hmm : (render_lines conf).map (fun l => l.data ++ ['\n'])
      = ((render_lines conf).map String.data).map (fun l => l ++ ['\n']) := by
    rw [List.map_map]; rfl
  rw [hmm, split_char_flatten]
  · rw [List.map_append, List.map_map]
    have hid : ((render_lines conf).map ((fun l => String.mk l) ∘ String.data))
        = render_lines conf := by
      conv_rhs => rw [← List.map_id (render_lines conf)]
      apply List.map_congr_left
      intro a _
      rfl
    rw [hid]
    rfl
  · intro l hl
    simp only [List.mem_map] at hl
    obtain ⟨s, hs, rfl⟩ := hl
    exact render_lines_no_newline conf h s hs

theorem flatten_concat_ends (c : Char) (ls : List (List Char)) (h : ls ≠ []) :
    ∃ pre, (ls.map (fun l => l ++ [c])).flatten = pre ++ [c] := by
  induction ls with
  | nil => exact absurd rfl h
  | cons x xs ih =>
    cases xs with
    | nil => exact ⟨x, by simp⟩
    | cons y ys =>
      obtain ⟨pre, hpre⟩ := ih (List.cons_ne_nil y ys)
      refine ⟨x ++ [c] ++ pre, ?_⟩
      simp only [List.map_cons, List.flatten_cons] at hpre ⊢
      rw [hpre]
      simp [List.append_assoc]

theorem py_split_render_table_last (conf : Config) :
    ∃ X, py_split_lines (render_table conf) = X ++ [""]
      ∧ X.length + 1 = (py_split_lines (render_table conf)).length := by
  have hne : (render_lines conf).map String.data ≠ [] := by
    simp [render_lines]
  obtain ⟨pre, hpre⟩ := flatten_concat_ends '\n' ((render_lines conf).map String.data) hne
  have hdata : (render_table conf).data = pre ++ ['\n'] := by
    rw [render_table_data]
    rw [show (render_lines conf).map (fun l => l.data ++ ['\n'])
        = ((render_lines conf).map String.data).map (fun l => l ++ ['\n']) by
      rw [List.map_map]; rfl]
    exact hpre
  refine ⟨(split_char '\n' pre).map (fun l => String.mk l), ?_, ?_⟩
  · unfold py_split_lines
    rw [hdata, split_char_concat_sep, List.map_append]
    rfl
  · unfold py_split_lines
    rw [hdata, split_char_concat_sep]
    simp

/-! ## Helper lemmas: the verify-mode diff -/

theorem mem_enum_snd {α : Type} (l : List α) (p : Nat × α) (h : p ∈ l.enum) :
    p.2 ∈ l := by
  obtain ⟨i, x⟩ := p
  have := List.mem_enum_iff_getElem?.mp h
  exact List.get?_mem (by rw [List.get?_eq_getElem?]; exact this)

theorem missing_lines_eq_nil_iff (table : String) (doc : List String) :
    missing_lines table doc = [] ↔
      ∀ l ∈ py_split_lines table, l ∈ stripped_doc doc := by
  unfold missing_lines
  rw [List.filter_eq_nil_iff]
  constructor
  · intro h l hl
    obtain ⟨i, hi⟩ := List.get?_of_mem hl
    have hmem : (i, l) ∈ (py_split_lines table).enum := by
      rw [List.mem_enum_iff_getElem?, ← List.get?_eq_getElem?]
      exact hi
    have h2 := h (i, l) hmem
    simpa [List.elem_iff] using h2
  · intro h a ha
    have h2 := h a.2 (mem_enum_snd _ _ ha)
    simpa [List.elem_iff] using h2

theorem stripped_doc_self_fixed (conf : Config) :
    stripped_doc (render_lines conf ++ [""]) = render_lines conf ++ [""] := by
  unfold stripped_doc
  rw [List.map_append,
    show (render_lines conf).map py_rstrip = (render_lines conf).map id from
      List.map_congr_left (fun a ha => render_lines_rstrip_fixed conf a ha),
    List.map_id]
  rfl

/-! ## Helper lemmas: column widths and grid shape -/

theorem le_foldl_max (l : List String) (a : Nat) :
    a ≤ l.foldl (fun size row => max size row.length) a := by
  induction l generalizing a with
  | nil => exact Nat.le_refl a
  | cons x xs ih => exact Nat.le_trans (Nat.le_max_left a x.length) (ih _)

theorem length_le_foldl_max (col : List String) (cell : String) (a : Nat)
    (h : cell ∈ col) :
    cell.length ≤ col.foldl (fun size row => max size row.length) a := by
  induction col generalizing a with
  | nil => cases h
  | cons x xs ih =>
    rcases List.mem_cons.mp h with rfl | hx
    · exact Nat.le_trans (Nat.le_max_right a cell.length) (le_foldl_max xs _)
    · exact ih _ hx

theorem length_le_column_size (col : List String) (cell : String) (h : cell ∈ col) :
    cell.length ≤ column_size col :=
  length_le_foldl_max col cell 0 h

theorem pad_left_justified_length (s : String) (w : Nat) (h : s.length ≤ w) :
    (pad_left_justified s w).length = w := by
  show (pad_left_justified s w).data.length = w
  rw [pad_left_justified_data, List.length_append, List.length_replicate]
  show s.length + (w - s.length) = w
  omega

theorem grid_col_length (conf : Config)
    (h : ∀ p ∈ conf, p.2.length = get_expected_config_names.length) :
    ∀ col ∈ table_grid conf, col.length = backend_header_column.length := by
  intro col hcol
  simp only [table_grid, List.mem_cons, List.mem_map] at hcol
  rcases hcol with rfl | ⟨p, hp, rfl⟩
  · rfl
  · have hlen := h p hp
    simp only [compiler_column, List.length_cons, List.length_map, hlen]
    decide

theorem row_cells_getD (conf : Config) (r c : Nat) (col : List String)
    (hc : (table_grid conf).get? c = some col) :
    (row_cells conf r).getD c "" = col.getD r "" := by
  unfold row_cells
  rw [List.getD_eq_getElem?_getD, List.getElem?_map, ← List.get?_eq_getElem?, hc]
  rfl

theorem rendered_column_cells_eq (conf : Config) (c : Nat) (col : List String)
    (hc : (table_grid conf).get? c = some col)
    (hlen : col.length = backend_header_column.length) :
    rendered_column_cells conf c = col := by
  apply List.ext
  intro n
  unfold rendered_column_cells
  by_cases hn : n < backend_header_column.length
  · rw [List.get?_eq_getElem?, List.getElem?_map]
    rw [show (List.range backend_header_column.length)[n]? = some n from by
      simp [List.getElem?_range, hn]]
    rw [Option.map_some']
    rw [row_cells_getD conf n c col hc]
    rw [List.getD_eq_getElem?_getD, ← List.get?_eq_getElem?]
    cases hg : col.get? n with
    | none => exfalso; rw [List.get?_eq_none] at hg; omega
    | some a => rfl
  · rw [List.get?_eq_none.mpr (by simp; omega), List.get?_eq_none.mpr (by omega)]

theorem column_sizes_get? (conf : Config) (c : Nat) (col : List String)
    (hc : (table_grid conf).get? c = some col) :
    (column_sizes conf).get? c = some (column_size col) := by
  unfold column_sizes
  rw [List.get?_eq_getElem?, List.getElem?_map, ← List.get?_eq_getElem?, hc]
  rfl

/-! ## Helper lemmas: the validator -/

theorem field_defect_none_iff (name : String) (cc : CompilerConf) (f : String) :
    field_defect name cc f = none ↔
      ∃ fc, alookup f cc = some fc
        ∧ ∃ st, fc.state = some st ∧ st ∈ get_known_state_names := by
  unfold field_defect
  cases alookup f cc with
  | none => simp
  | some fc =>
    cases hst : fc.state with
    | none => simp [hst]
    | some st =>
      by_cases hm : st ∈ get_known_state_names
      · simp [hst, if_pos hm, hm]
      · simp [hst, if_neg hm, hm]

theorem field_defect_names (name : String) (cc : CompilerConf) (f : String)
    (e : ValidationError) (h : field_defect name cc f = some e) :
    err_compiler e = name ∧ err_field e = f
    ∧ ∀ v, err_value e = some v → ∃ fc, alookup f cc = some fc ∧ fc.state = some v := by
  cases ha : alookup f cc with
  | none =>
    simp only [field_defect, ha, Option.some.injEq] at h
    subst h
    exact ⟨rfl, rfl, fun v hv => by cases hv⟩
  | some fc =>
    simp only [field_defect, ha] at h
    cases hst : fc.state with
    | none =>
      simp only [hst, Option.some.injEq] at h
      subst h
      exact ⟨rfl, rfl, fun v hv => by cases hv⟩
    | some st =>
      simp only [hst] at h
      by_cases hm : st ∈ get_known_state_names
      · rw [if_pos hm] at h; cases h
      · rw [if_neg hm] at h
        injection h with h
        subst h
        refine ⟨rfl, rfl, fun v hv => ?_⟩
        simp only [err_value, Option.some.injEq] at hv
        subst hv
        exact ⟨fc, rfl, hst⟩

theorem validate_fields_eq_none_iff (name : String) (cc : CompilerConf)
    (fs : List String) :
    validate_fields name cc fs = none ↔ ∀ f ∈ fs, field_defect name cc f = none := by
  induction fs with
  | nil => simp [validate_fields]
  | cons f fs ih =>
    unfold validate_fields
    cases hf : field_defect name cc f with
    | some e => simp [hf]
    | none => simp [hf, ih]

theorem validate_fields_first (name : String) (cc : CompilerConf) (fs : List String)
    (e : ValidationError) (h : validate_fields name cc fs = some e) :
    ∃ j f, fs.get? j = some f ∧ field_defect name cc f = some e
      ∧ ∀ j' f', j' < j → fs.get? j' = some f' → field_defect name cc f' = none := by
  induction fs with
  | nil => cases h
  | cons f fs ih =>
    unfold validate_fields at h
    cases hf : field_defect name cc f with
    | some e' =>
      rw [hf] at h
      injection h with h
      subst h
      exact ⟨0, f, rfl, hf, fun j' f' hj' => absurd hj' (Nat.not_lt_zero j')⟩
    | none =>
      rw [hf] at h
      obtain ⟨j, g, hg, hd, hmin⟩ := ih h
      refine ⟨j + 1, g, hg, hd, ?_⟩
      intro j' f' hj' hget
      cases j' with
      | zero =>
        injection hget with hget
        subst hget
        exact hf
      | succ j'' => exact hmin j'' f' (Nat.lt_of_succ_lt_succ hj') hget

theorem config_validator_eq_none_iff (conf : Config) :
    config_validator conf = none ↔
      ∀ p ∈ conf, validate_fields p.1 p.2 get_expected_config_names = none := by
  induction conf with
  | nil => simp [config_validator]
  | cons p rest ih =>
    obtain ⟨name, cc⟩ := p
    unfold config_validator
    cases hv : validate_fields name cc get_expected_config_names with
    | some e => simp [hv]
    | none => simp [hv, ih]

theorem config_validator_first (conf : Config) (e : ValidationError)
    (h : config_validator conf = some e) :
    ∃ i name cc, conf.get? i = some (name, cc)
      ∧ validate_fields name cc get_expected_config_names = some e
      ∧ ∀ i' name' cc', i' < i → conf.get? i' = some (name', cc') →
          validate_fields name' cc' get_expected_config_names = none := by
  induction conf with
  | nil => cases h
  | cons p rest ih =>
    obtain ⟨name, cc⟩ := p
    unfold config_validator at h
    cases hv : validate_fields name cc get_expected_config_names with
    | some e' =>
      rw [hv] at h
      injection h with h
      subst h
      exact ⟨0, name, cc, rfl, hv, fun i' n' c' hi' => absurd hi' (Nat.not_lt_zero i')⟩
    | none =>
      rw [hv] at h
      obtain ⟨i, n, c, hg, hvf, hmin⟩ := ih h
      refine ⟨i + 1, n, c, hg, hvf, ?_⟩
      intro i' n' c' hi' hget
      cases i' with
      | zero =>
        simp only [List.get?_cons_zero, Option.some.injEq, Prod.mk.injEq] at hget
        obtain ⟨h1, h2⟩ := hget
        subst h1
        subst h2
        exact hv
      | succ i'' => exact hmin i'' n' c' (Nat.lt_of_succ_lt_succ hi') hget

/-! ## Claim theorems -/

/-- C6: verification succeeds (exit status 0) iff every line of the
rendered table, split on newline, occurs among the document's lines with
trailing whitespace stripped (rendered lines compared unmodified); the
missing-line report lists exactly the absent lines with their zero-based
index in the split table and their literal content; the exit status is
always 0 or 1. -/
theorem c6_verify_iff (table : String) (doc : List String) :
    (verify_exit table doc = 0 ↔ ∀ l ∈ py_split_lines table, l ∈ stripped_doc doc)
    ∧ (∀ (i : Nat) (l : String),
        (i, l) ∈ missing_lines table doc ↔
          ((py_split_lines table).get? i = some l ∧ l ∉ stripped_doc doc))
    ∧ (verify_exit table doc = 0 ∨ verify_exit table doc = 1) := by
  have hiff : verify_exit table doc = 0 ↔ missing_lines table doc = [] := by
    unfold verify_exit
    by_cases hm : missing_lines table doc = [] <;> simp [hm]
  refine ⟨hiff.trans (missing_lines_eq_nil_iff table doc), ?_, ?_⟩
  · intro i l
    unfold missing_lines
    rw [List.mem_filter]
    constructor
    · rintro ⟨hmem, hpred⟩
      refine ⟨?_, ?_⟩
      · rw [List.get?_eq_getElem?]
        exact List.mem_enum_iff_getElem?.mp hmem
      · intro hl
        simp only [Bool.not_eq_true', ← List.elem_iff] at hl hpred
        rw [show (stripped_doc doc).contains l = List.elem l (stripped_doc doc) from rfl]
          at hpred
        rw [hpred] at hl
        exact Bool.false_ne_true hl
    · rintro ⟨hget, hnot⟩
      refine ⟨?_, ?_⟩
      · rw [List.mem_enum_iff_getElem?, ← List.get?_eq_getElem?]
        exact hget
      · simpa [List.elem_iff] using hnot
  · unfold verify_exit
    by_cases hm : missing_lines table doc = [] <;> simp [hm]

/-- C8 counterexample: a validated configuration whose `serial` comment
contains a space followed by a newline breaks the round trip: verifying
the renderer's own output against itself reports a missing line, because
the cell's newline splits a rendered row into a piece with trailing
whitespace, which the stripped document no longer contains. -/
theorem c8_roundtrip_counterexample :
    config_validator newline_comment_conf = none
    ∧ missing_lines (render_table newline_comment_conf)
        (py_split_lines (render_table newline_comment_conf)) ≠ [] := by
  constructor
  · decide
  · decide

/-- C8 amended: for every configuration whose compiler names and comments
contain no newline character, the Verifier on a document consisting
exactly of the Renderer's own output split into lines reports zero
missing lines and exits 0; rendering the same configuration twice yields
identical strings. -/
theorem c8_roundtrip_amended (conf : Config) (h : no_newline_cells conf = true) :
    missing_lines (render_table conf) (py_split_lines (render_table conf)) = []
    ∧ verify_exit (render_table conf) (py_split_lines (render_table conf)) = 0
    ∧ render_table conf = render_table conf := by
  have hm : missing_lines (render_table conf) (py_split_lines (render_table conf)) = [] := by
    rw [missing_lines_eq_nil_iff]
    intro l hl
    rw [py_split_render_table conf h] at hl
    rw [py_split_render_table conf h, stripped_doc_self_fixed conf]
    exact hl
  exact ⟨hm, by unfold verify_exit; rw [hm]; rfl, rfl⟩

/-- Witness for C8: the zero-compiler configuration round-trips. -/
theorem c8_roundtrip_amended_witness :
    missing_lines (render_table ([] : Config)) (py_split_lines (render_table ([] : Config))) = []
    ∧ verify_exit (render_table ([] : Config)) (py_split_lines (render_table ([] : Config))) = 0
    ∧ render_table ([] : Config) = render_table ([] : Config) :=
  c8_roundtrip_amended [] (by decide)

/-- C10: the rendered table ends in a newline, so splitting it yields a
final empty line that is membership-tested too: against any document
whose lines all strip to something nonempty, verification fails with
exit status 1 even when every visible table line is present, and the
missing-line report is exactly the empty line with index
`(number of split lines) - 1`. -/
theorem c10_trailing_empty_line (conf : Config) (doc : List String)
    (h1 : ∀ l ∈ (py_split_lines (render_table conf)).dropLast, l ∈ stripped_doc doc)
    (h2 : ∀ d ∈ doc, py_rstrip d ≠ "") :
    verify_exit (render_table conf) doc = 1
    ∧ missing_lines (render_table conf) doc
        = [((py_split_lines (render_table conf)).length - 1, "")] := by
  obtain ⟨X, hX, hlen⟩ := py_split_render_table_last conf
  have hdrop : (py_split_lines (render_table conf)).dropLast = X := by
    rw [hX]
    exact List.dropLast_concat
  have hempty : ("" : String) ∉ stripped_doc doc := by
    intro hmem
    obtain ⟨d, hd, hrs⟩ := List.mem_map.mp hmem
    exact h2 d hd hrs
  have hcontains : (stripped_doc doc).contains "" = false := by
    cases hc : (stripped_doc doc).contains "" with
    | false => rfl
    | true => exact absurd (List.elem_iff.mp hc) hempty
  have hmiss : missing_lines (render_table conf) doc = [(X.length, "")] := by
    unfold missing_lines
    rw [hX, List.enum_append, List.filter_append]
    have hfe : X.enum.filter (fun il => !((stripped_doc doc).contains il.2)) = [] := by
      rw [List.filter_eq_nil_iff]
      intro a ha
      have hmem : a.2 ∈ stripped_doc doc :=
        h1 a.2 (by rw [hdrop]; exact mem_enum_snd _ _ ha)
      simp [List.elem_iff, hmem]
    rw [hfe]
    simp [List.enumFrom, List.filter, hcontains, hempty]
  refine ⟨?_, ?_⟩
  · unfold verify_exit
    rw [hmiss]
    simp
  · rw [hmiss]
    have hl : (py_split_lines (render_table conf)).length - 1 = X.length := by omega
    rw [hl]

/-- Witness for C10: the zero-compiler table against the document holding
exactly its visible lines. -/
theorem c10_trailing_empty_line_witness :
    verify_exit (render_table ([] : Config))
        ((py_split_lines (render_table ([] : Config))).dropLast) = 1
    ∧ missing_lines (render_table ([] : Config))
        ((py_split_lines (render_table ([] : Config))).dropLast)
        = [((py_split_lines (render_table ([] : Config))).length - 1, "")] :=
  c10_trailing_empty_line [] _ (by decide) (by decide)

/-- C1 counterexample: for a validated one-compiler configuration the
header row's cells are not "Accelerator Back-end" followed by the nine
backend labels, and the number of rendered lines is not
compilers + 2 — the table is transposed relative to the claim. -/
theorem c1_header_counterexample :
    config_validator one_compiler_conf = none
    ∧ row_cells one_compiler_conf 0
        ≠ "Accelerator Back-end" :: get_expected_config_entries.map (fun n => n.representation)
    ∧ (render_lines one_compiler_conf).length ≠ 1 + 2 := by
  refine ⟨by decide, by decide, by decide⟩

/-- C1 amended: the header row is "Accelerator Back-end" followed by the
compiler names in insertion order (compilers are columns); after the
separator there are exactly nine body rows, one per backend field in
fixed order, whose column-0 cell is the field's human-readable label
(backend fields are rows). -/
theorem c1_header_rows_amended (conf : Config) :
    row_cells conf 0 = "Accelerator Back-end" :: conf.map (fun p => p.1)
    ∧ (List.range' 1 (backend_header_column.length - 1)).map
        (fun r => (row_cells conf r).getD 0 "")
        = get_expected_config_entries.map (fun n => n.representation)
    ∧ (render_lines conf).length = 2 + get_expected_config_entries.length := by
  refine ⟨?_, ?_, ?_⟩
  · unfold row_cells table_grid
    rw [List.map_cons, List.map_map]
    rfl
  · rw [List.map_congr_left (fun r _ =>
      show (row_cells conf r).getD 0 "" = backend_header_column.getD r "" from rfl)]
    decide
  · simp [render_lines, backend_header_column, get_expected_config_entries]

/-- C2 counterexample: the zero-compiler configuration is validated and
renders eleven newline-terminated lines, not 0 + 2. -/
theorem c2_line_count_counterexample :
    config_validator ([] : Config) = none
    ∧ (render_table ([] : Config)).data.count '\n' = 11
    ∧ (render_table ([] : Config)).data.count '\n' ≠ 0 + 2 := by
  refine ⟨rfl, by decide, by decide⟩

/-- C2 amended: for every configuration (newline-free names and comments),
the output consists of exactly eleven newline-terminated lines — one
header, one separator and nine body rows, one per backend field —
independent of the number of compilers. -/
theorem c2_line_count_amended (conf : Config) (h : no_newline_cells conf = true) :
    (render_lines conf).length = 11
    ∧ py_split_lines (render_table conf) = render_lines conf ++ [""] :=
  ⟨by simp [render_lines, backend_header_column, get_expected_config_entries],
   py_split_render_table conf h⟩

/-- Witness for C2: the zero-compiler configuration. -/
theorem c2_line_count_amended_witness :
    (render_lines ([] : Config)).length = 11
    ∧ py_split_lines (render_table ([] : Config)) = render_lines ([] : Config) ++ [""] :=
  c2_line_count_amended [] (by decide)

/-- C3 counterexample: the rendered status glyphs are the emoji
shortcodes, not the literal emoji characters the claim states. -/
theorem c3_glyph_counterexample :
    render_cell ⟨some "yes", none⟩ = ":white_check_mark:"
    ∧ render_cell ⟨some "yes", none⟩ ≠ "✅"
    ∧ render_cell ⟨some "no", none⟩ = ":x:"
    ∧ render_cell ⟨some "no", none⟩ ≠ "❌" := by
  refine ⟨rfl, by decide, rfl, by decide⟩

/-- C3 amended: the glyph for "yes" is the literal string
":white_check_mark:", for "no" ":x:", and for "none" "-"; a compiler
with serial yes and tbb no renders a serial cell ":white_check_mark:"
and a tbb cell ":x:" (shown both in its grid column and in the rendered
serial/tbb rows). -/
theorem c3_glyph_amended :
    lookup_state "yes" = some ":white_check_mark:"
    ∧ lookup_state "no" = some ":x:"
    ∧ lookup_state "none" = some "-"
    ∧ compiler_column "gcc" gcc_conf
        = ["gcc", ":white_check_mark:", ":white_check_mark:", ":white_check_mark:",
           ":white_check_mark:", ":x:", ":x:", ":x:", ":x:", ":x:"]
    ∧ (row_cells one_compiler_conf 1).getD 1 "" = ":white_check_mark:"
    ∧ (row_cells one_compiler_conf 5).getD 1 "" = ":x:" := by
  refine ⟨rfl, rfl, rfl, by decide, by decide, by decide⟩

/-- C4 counterexample: a validated configuration with a tolerated tenth
field produces a grid whose columns do not all have the same number of
cells (the header column has 10, the compiler's column 11). -/
theorem c4_grid_counterexample :
    config_validator extra_field_conf = none
    ∧ ¬ (∀ c1 ∈ table_grid extra_field_conf, ∀ c2 ∈ table_grid extra_field_conf,
          c1.length = c2.length) := by
  refine ⟨by decide, by decide⟩

/-- C4 amended: when every compiler's mapping has exactly the nine
expected fields, every grid column has the same number of cells, namely
the header column's ten. -/
theorem c4_grid_amended (conf : Config)
    (h : ∀ p ∈ conf, p.2.length = get_expected_config_names.length) :
    ∀ col ∈ table_grid conf, col.length = backend_header_column.length := by
  intro col hcol
  simp only [table_grid, List.mem_cons, List.mem_map] at hcol
  rcases hcol with rfl | ⟨p, hp, rfl⟩
  · rfl
  · have hlen := h p hp
    simp only [compiler_column, List.length_cons, List.length_map, hlen]
    decide

/-- Witness for C4: the validated one-compiler configuration, at the
compiler's column. -/
theorem c4_grid_amended_witness :
    (compiler_column "gcc" gcc_conf).length = backend_header_column.length :=
  c4_grid_amended one_compiler_conf (by decide)
    (compiler_column "gcc" gcc_conf) (by decide)

/-- C7 counterexample: in a validated configuration with a tolerated
tenth field carrying a long comment, the width used for the compiler's
column (54) exceeds the maximum length over the cells that actually
appear in the rendered column (18): the unrendered extra cell enters the
width computation. -/
theorem c7_width_counterexample :
    config_validator extra_wide_conf = none
    ∧ (column_sizes extra_wide_conf).getD 1 0 = 54
    ∧ column_size (rendered_column_cells extra_wide_conf 1) = 18
    ∧ (54 : Nat) ≠ 18 := by
  refine ⟨by decide, by decide, by decide, by decide⟩

/-- C7 amended: when every compiler's mapping has exactly the nine
expected fields, each column's width equals the maximum cell length over
the cells of the rendered column (header cell and all body cells); every
cell is at most that wide and left-justified padding brings it to
exactly that width; the separator row is `|` followed per column by
width + 2 dashes and `|`. -/
theorem c7_width_amended (conf : Config)
    (h : ∀ p ∈ conf, p.2.length = get_expected_config_names.length) :
    (∀ (c : Nat) (col : List String), (table_grid conf).get? c = some col →
        (column_sizes conf).get? c = some (column_size (rendered_column_cells conf c))
        ∧ ∀ cell ∈ col, cell.length ≤ column_size col
            ∧ (pad_left_justified cell (column_size col)).length = column_size col)
    ∧ (separator_row (column_sizes conf)).data
        = '|' :: ((column_sizes conf).map
            (fun w => List.replicate (w + 2) '-' ++ ['|'])).flatten := by
  constructor
  · intro c col hc
    have hlen : col.length = backend_header_column.length :=
      grid_col_length conf h col (List.get?_mem hc)
    refine ⟨?_, ?_⟩
    · rw [column_sizes_get? conf c col hc,
        rendered_column_cells_eq conf c col hc hlen]
    · intro cell hcell
      have hle : cell.length ≤ column_size col := length_le_column_size col cell hcell
      exact ⟨hle, pad_left_justified_length cell _ hle⟩
  · exact separator_row_data _

/-- Witness for C7: the validated one-compiler configuration, at the
compiler's column and its tbb cell. -/
theorem c7_width_amended_witness :
    (column_sizes one_compiler_conf).get? 1
        = some (column_size (rendered_column_cells one_compiler_conf 1))
    ∧ (":x:" : String).length ≤ column_size (compiler_column "gcc" gcc_conf)
    ∧ (pad_left_justified ":x:" (column_size (compiler_column "gcc" gcc_conf))).length
        = column_size (compiler_column "gcc" gcc_conf) := by
  have h := (c7_width_amended one_compiler_conf (by decide)).1
      1 (compiler_column "gcc" gcc_conf) (by decide)
  exact ⟨h.1, (h.2 ":x:" (by decide)).1, (h.2 ":x:" (by decide)).2⟩

/-- C5: the validator succeeds exactly when every compiler entry has all
nine expected fields, each with a `state` key holding a recognized
value; on failure it stops at the first defect in configuration
insertion order then field order, and the reported error names the
offending compiler, the field, and (for an unknown state) the bad
value. -/
theorem c5_validator_exact (conf : Config) :
    (config_validator conf = none ↔
      ∀ p ∈ conf, ∀ f ∈ get_expected_config_names,
        ∃ fc, alookup f p.2 = some fc
          ∧ ∃ st, fc.state = some st ∧ st ∈ get_known_state_names)
    ∧ ∀ e, config_validator conf = some e →
        ∃ i j name cc f, conf.get? i = some (name, cc)
          ∧ get_expected_config_names.get? j = some f
          ∧ field_defect name cc f = some e
          ∧ err_compiler e = name ∧ err_field e = f
          ∧ (∀ v, err_value e = some v →
              ∃ fc, alookup f cc = some fc ∧ fc.state = some v)
          ∧ (∀ i' j' name' cc' f', conf.get? i' = some (name', cc') →
              get_expected_config_names.get? j' = some f' →
              (i' < i ∨ (i' = i ∧ j' < j)) →
              field_defect name' cc' f' = none) := by
  constructor
  · rw [config_validator_eq_none_iff]
    constructor
    · intro h p hp f hf
      exact (field_defect_none_iff _ _ _).mp
        ((validate_fields_eq_none_iff _ _ _).mp (h p hp) f hf)
    · intro h p hp
      rw [validate_fields_eq_none_iff]
      intro f hf
      exact (field_defect_none_iff _ _ _).mpr (h p hp f hf)
  · intro e he
    obtain ⟨i, name, cc, hgi, hvf, hmini⟩ := config_validator_first conf e he
    obtain ⟨j, f, hgj, hd, hminj⟩ := validate_fields_first name cc _ e hvf
    obtain ⟨he1, he2, he3⟩ := field_defect_names name cc f e hd
    refine ⟨i, j, name, cc, f, hgi, hgj, hd, he1, he2, he3, ?_⟩
    intro i' j' name' cc' f' hgi' hgj' hord
    rcases hord with hlt | ⟨rfl, hjlt⟩
    · exact (validate_fields_eq_none_iff _ _ _).mp
        (hmini i' name' cc' hlt hgi') f' (List.get?_mem hgj')
    · rw [hgi] at hgi'
      simp only [Option.some.injEq, Prod.mk.injEq] at hgi'
      obtain ⟨h1, h2⟩ := hgi'
      subst h1
      subst h2
      exact hminj j' f' hjlt hgj'

/-- Witness for C5: a compiler with an empty mapping fails with a
missing `serial` field, reported first. -/
theorem c5_validator_exact_witness :
    ∃ i j name cc f,
      (([("clang", ([] : CompilerConf))]) : Config).get? i = some (name, cc)
      ∧ get_expected_config_names.get? j = some f
      ∧ field_defect name cc f = some (ValidationError.missingField "clang" "serial")
      ∧ err_compiler (ValidationError.missingField "clang" "serial") = name
      ∧ err_field (ValidationError.missingField "clang" "serial") = f
      ∧ (∀ v, err_value (ValidationError.missingField "clang" "serial") = some v →
          ∃ fc, alookup f cc = some fc ∧ fc.state = some v)
      ∧ (∀ i' j' name' cc' f',
          (([("clang", ([] : CompilerConf))]) : Config).get? i' = some (name', cc') →
          get_expected_config_names.get? j' = some f' →
          (i' < i ∨ (i' = i ∧ j' < j)) →
          field_defect name' cc' f' = none) :=
  (c5_validator_exact [("clang", [])]).2
    (ValidationError.missingField "clang" "serial") (by decide)

/-- C9: for every recognized state, the rendered body cell is the
state's glyph alone when no comment is present, and the glyph followed
by exactly one space and the literal comment text when one is. -/
theorem c9_cell_comment (st g c : String) (h : lookup_state st = some g) :
    render_cell ⟨some st, none⟩ = g
    ∧ render_cell ⟨some st, some c⟩ = g ++ " " ++ c := by
  unfold render_cell
  simp [h]

/-- Witness for C9: state "yes" with comment "partial" renders as the
yes-glyph, a space, then "partial". -/
theorem c9_cell_comment_witness :
    render_cell ⟨some "yes", none⟩ = ":white_check_mark:"
    ∧ render_cell ⟨some "yes", some "partial"⟩ = ":white_check_mark:" ++ " " ++ "partial" :=
  c9_cell_comment "yes" ":white_check_mark:" "partial" (by decide)

end ReadmeGen
